import Mathlib

/-!
Shallow embedding of the django-ontology attribute-based authorization engine.

The data model follows the final revision of the repository: the `Entity`,
`Domain` and `Attribute` tables are taken from `ontology/migrations/0001_initial.py`
and spec section 3 (the final `ontology/models.py` class bodies are not in the
source tree), while `Policy`, `Entitlement`, the change-propagator handlers and
the authorization backend are translated directly from `ontology_auth/models.py`,
`ontology_auth/signals.py` and `ontology_auth/backends.py`.  Machine rows are
lists of records keyed by integer ids; Django querysets become list filters,
raised exceptions become `Except.error`.
-/

namespace Onto

/-- A Django content type, identified by its `(app_label, model)` pair. -/
structure CT where
  app_label : String
  model : String
deriving DecidableEq

/-- A row of the host permission catalog: `(id, codename, content_type)`. -/
structure Perm where
  pid : Nat
  codename : String
  ct : CT
deriving DecidableEq

/-- An `ontology.Entity` row with its junction tables, per migration 0001:
`deleted_time` nullable timestamp, the `content_types` many-to-many and the
`attrs` many-to-many (attribute ids). -/
structure Entity where
  id : Nat
  deleted_time : Option Nat
  content_types : List CT
  attrs : List Nat
deriving DecidableEq

/-- An `ontology.Attribute` row: interned `(domain, key, value)` triple. -/
structure Attribute where
  aid : Nat
  domain : Nat
  key : String
  value : String
deriving DecidableEq

/-- An `ontology.Domain` component row: primary key is its entity id, plus the
member-entity junction `entities`. -/
structure Domain where
  entity : Nat
  slug : String
  entities : List Nat
deriving DecidableEq

/-- An `ontology_auth.Policy` row with its three many-to-many sets. -/
structure Policy where
  id : Nat
  domain : Nat
  label : String
  source_attrs : List Nat
  allow_permissions : List Nat
  target_attrs : List Nat
  disabled : Bool
deriving DecidableEq

/-- An `ontology_auth.Entitlement` row, unique on the whole 4-tuple. -/
structure Entitlement where
  source : Nat
  permission : Nat
  target : Nat
  policy : Nat
deriving DecidableEq

/-- The relational store. -/
structure DB where
  entities : List Entity
  domains : List Domain
  attributes : List Attribute
  permissions : List Perm
  policies : List Policy
  entitlements : List Entitlement
deriving DecidableEq

def findEntity (db : DB) (i : Nat) : Option Entity :=
  db.entities.find? (fun e => e.id == i)

def findDomain (db : DB) (i : Nat) : Option Domain :=
  db.domains.find? (fun d => d.entity == i)

def findPerm (db : DB) (i : Nat) : Option Perm :=
  db.permissions.find? (fun p => p.pid == i)

def findPolicy (db : DB) (i : Nat) : Option Policy :=
  db.policies.find? (fun P => P.id == i)

/-- The content type of the `User` component model, used by `Policy.sources`
(`ContentType.objects.get_for_model(get_user_model())`). -/
def userCT : CT := ⟨"ontology_auth", "user"⟩

/-- `Policy.sources`: entities of the policy domain that carry the `User`
content type and every attribute of `source_attrs` (chained queryset filters). -/
def Policy.sources (P : Policy) (db : DB) : List Entity :=
  match findDomain db P.domain with
  | none => []
  | some d =>
    (d.entities.filterMap (findEntity db)).filter
      (fun e => decide (userCT ∈ e.content_types) &&
        P.source_attrs.all (fun a => decide (a ∈ e.attrs)))

/-- `Policy.targets`: entities of the policy domain that carry every attribute
of `target_attrs`. -/
def Policy.targets (P : Policy) (db : DB) : List Entity :=
  match findDomain db P.domain with
  | none => []
  | some d =>
    (d.entities.filterMap (findEntity db)).filter
      (fun e => P.target_attrs.all (fun a => decide (a ∈ e.attrs)))

/-- `self.allow_permissions.all()`: the permission records of the policy. -/
def Policy.allowPerms (P : Policy) (db : DB) : List Perm :=
  db.permissions.filter (fun p => decide (p.pid ∈ P.allow_permissions))

def attributeError : String := "AttributeError: Entity object has no attribute content_type"

/-- Modelled from the spec: the final `Entity` model class is absent from the
source tree; by migration 0001 and spec section 3 it carries only the set-valued
`content_types` relation and defines no singular `content_type` attribute, so
the attribute access `target.content_type` in `Policy.create_entitlements`
raises `AttributeError`. -/
def Entity.content_type (_e : Entity) : Except String CT :=
  .error attributeError

/-- `Policy.create_entitlements`: triple loop over sources, targets and
permissions, guarded by `permission.content_type == target.content_type`;
returns the batch handed to `bulk_create(..., ignore_conflicts=True)`. -/
def Policy.create_entitlements (P : Policy) (db : DB) : Except String (List Entitlement) := do
  let sources := P.sources db
  let targets := P.targets db
  let permissions := P.allowPerms db
  let mut new_entitlements : List Entitlement := []
  for source in sources do
    for target in targets do
      for permission in permissions do
        let tct ← target.content_type
        if permission.ct = tct then
          new_entitlements := new_entitlements ++ [⟨source.id, permission.pid, target.id, P.id⟩]
  return new_entitlements

def integrityError : String := "IntegrityError: duplicate key violates unique constraint"

/-- `bulk_create(rows, ignore_conflicts=True)`: rows whose unique 4-tuple is
already present are dropped silently. -/
def insertIgnore (ents rows : List Entitlement) : List Entitlement :=
  rows.foldl (fun acc r => if r ∈ acc then acc else acc ++ [r]) ents

/-- `bulk_create(rows)` without `ignore_conflicts`: a row whose unique 4-tuple
is already present makes the whole statement fail. -/
def insertStrict (ents rows : List Entitlement) : Except String (List Entitlement) :=
  rows.foldlM (fun acc r =>
    if r ∈ acc then Except.error integrityError else Except.ok (acc ++ [r])) ents

/-- `policy.entitlements.all()`. -/
def Policy.entitlementRows (P : Policy) (db : DB) : List Entitlement :=
  db.entitlements.filter (fun r => r.policy == P.id)

/-- The queryset `self.entitlements.values("permission_id", "target_id").distinct()`
of `_extrude_source`. -/
def Policy.sourceReferences (P : Policy) (db : DB) : List (Nat × Nat) :=
  ((P.entitlementRows db).map (fun r => (r.permission, r.target))).dedup

/-- The queryset of `_extrude_target`: the distinct
`(permission_id, source_id)` pairs of the policy entitlements whose permission
content type is among the new target content types. -/
def Policy.targetReferences (P : Policy) (db : DB) (target : Entity) : List (Nat × Nat) :=
  (((P.entitlementRows db).filter (fun r =>
      match findPerm db r.permission with
      | some p => decide (p.ct ∈ target.content_types)
      | none => false)).map (fun r => (r.permission, r.source))).dedup

/-- `Policy._extrude_source`: reuse the distinct `(permission, target)` pairs of
the existing entitlements of the policy; when there are none, fall back to the
full scan of `targets()` against `allow_permissions` filtered by
`content_type__in=target.content_types`. -/
def Policy.extrude_source (P : Policy) (db : DB) (source : Entity) : List Entitlement :=
  (if (P.sourceReferences db).isEmpty then
      (P.targets db).flatMap (fun target =>
        ((P.allowPerms db).filter (fun p => decide (p.ct ∈ target.content_types))).map
          (fun p => ⟨source.id, p.pid, target.id, P.id⟩))
    else []) ++
  (P.sourceReferences db).map (fun pr => ⟨source.id, pr.1, pr.2, P.id⟩)

def fkAssignError : String :=
  "ValueError: Entitlement.source must be an Entity instance, not a raw id"

/-- `Policy._extrude_target`: when no existing entitlement of the policy has a
permission content type among the new target content types, fall back to the
full scan of `sources()` against all of `allow_permissions` (with no
content-type filter on this fallback path) and return those rows; otherwise the
loop over the reference pairs constructs
`Entitlement(policy=self, source=d["source_id"], ...)`, assigning a raw primary
key to the `source` foreign-key descriptor, which raises `ValueError` on its
first iteration, before any row is returned. -/
def Policy.extrude_target (P : Policy) (db : DB) (target : Entity) :
    Except String (List Entitlement) :=
  if (P.targetReferences db target).isEmpty then
    .ok ((P.sources db).flatMap (fun source =>
      (P.allowPerms db).map (fun p => ⟨source.id, p.pid, target.id, P.id⟩)))
  else .error fkAssignError

/-- `Policy.save`: inside one transaction, persist the row and run
`create_entitlements()`; there is no orphan sweep in the source. -/
def Policy.savePolicy (P : Policy) (db : DB) : Except String DB := do
  let rows ← P.create_entitlements db
  return { db with entitlements := insertIgnore db.entitlements rows }

/-- `on_entity_attribute_change`, `post_add` branch (forward direction:
the entity gained the listed attribute ids): for each policy having the added
attribute among its source (resp. target) attributes and whose remaining
source (resp. target) attributes are all on the entity, extrude the entity;
a `ValueError` raised inside `_extrude_target` propagates out of the handler;
the batch is inserted with `ignore_conflicts=True`. -/
def onEntityAttributeAdd (db : DB) (entityId : Nat) (attrIds : List Nat) : Except String DB :=
  match findEntity db entityId with
  | none => .ok db
  | some entity => do
    let mut new_entitlements : List Entitlement := []
    for aId in attrIds do
      for P in db.policies.filter (fun P => decide (aId ∈ P.source_attrs) &&
          (P.source_attrs.filter (fun b => b != aId)).all
            (fun b => decide (b ∈ entity.attrs))) do
        new_entitlements := new_entitlements ++ P.extrude_source db entity
      for P in db.policies.filter (fun P => decide (aId ∈ P.target_attrs) &&
          (P.target_attrs.filter (fun b => b != aId)).all
            (fun b => decide (b ∈ entity.attrs))) do
        let rows ← P.extrude_target db entity
        new_entitlements := new_entitlements ++ rows
    return { db with entitlements := insertIgnore db.entitlements new_entitlements }

/-- `on_entity_domain_change`, `post_add` branch (forward direction: the domain
gained the listed entity ids, and the membership rows are already stored when
the signal fires): extrude each added entity as source of every catch-all-source
policy of the domain and as target of every catch-all-target policy; a
`ValueError` raised inside `_extrude_target` propagates; the batch is inserted
by plain `bulk_create`, without `ignore_conflicts`. -/
def onEntityDomainAdd (db : DB) (domainId : Nat) (entityIds : List Nat) : Except String DB := do
  let mut new_entitlements : List Entitlement := []
  for eId in entityIds do
    match findEntity db eId with
    | none => pure ()
    | some entity =>
      for P in db.policies.filter (fun P => P.domain == domainId && P.source_attrs.isEmpty) do
        new_entitlements := new_entitlements ++ P.extrude_source db entity
      for P in db.policies.filter (fun P => P.domain == domainId && P.target_attrs.isEmpty) do
        let rows ← P.extrude_target db entity
        new_entitlements := new_entitlements ++ rows
  let ents ← insertStrict db.entitlements new_entitlements
  return { db with entitlements := ents }

/-- `on_policy_allow_permissions_change`, `post_add` branch (forward direction:
the policy gained the listed permission ids): clone the distinct
`(source, target)` pairs of the existing entitlements whose target carries the
new permission content type; the batch is inserted by plain `bulk_create`,
without `ignore_conflicts`. -/
def onPolicyAllowPermissionsAdd (db : DB) (policyId : Nat) (permIds : List Nat) :
    Except String DB := do
  let newRows := (db.policies.filter (fun P => P.id == policyId)).flatMap (fun P =>
    permIds.flatMap (fun pId =>
      match findPerm db pId with
      | none => []
      | some p =>
        (((P.entitlementRows db).filter (fun r =>
            match findEntity db r.target with
            | some t => decide (p.ct ∈ t.content_types)
            | none => false)).map (fun r => (r.source, r.target))).dedup.map
          (fun st => ⟨st.1, p.pid, st.2, P.id⟩)))
  let ents ← insertStrict db.entitlements newRows
  return { db with entitlements := ents }

/-- Splitting a character list on the dot, with the semantics of the Python
`str.split` with a separator: `"a.b"` gives `["a","b"]`, `"x"` gives `["x"]`,
the empty string gives `[""]`. -/
def splitOnDot : List Char → List (List Char)
  | [] => [[]]
  | c :: rest =>
    let r := splitOnDot rest
    if c = '.' then [] :: r
    else
      match r with
      | [] => [[c]]
      | t :: ts => (c :: t) :: ts

/-- `perm.split(".")` on the permission string. -/
def permTokens (perm : String) : List String :=
  (splitOnDot perm.toList).map (fun cs => String.mk cs)

/-- The object handed to `has_perm`: Python `None`, a component instance, a bare
entity, or anything else. -/
inductive AuthTarget where
  | pyNone : AuthTarget
  | comp : Nat → AuthTarget
  | entity : Nat → AuthTarget
  | other : AuthTarget
deriving DecidableEq

/-- The entity id the backend resolves the target object to, when it does. -/
def entityRef : AuthTarget → Option Nat
  | .comp t => some t
  | .entity t => some t
  | _ => none

/-- The row condition of the final existence query of the backend. -/
def entMatches (db : DB) (source target : Nat) (app_label codename : String)
    (r : Entitlement) : Bool :=
  r.source == source && r.target == target &&
  (match findPerm db r.permission with
   | some p => p.codename == codename && p.ct.app_label == app_label
   | none => false) &&
  (match findEntity db r.source with
   | some s => s.deleted_time.isNone
   | none => false) &&
  (match findEntity db r.target with
   | some t => t.deleted_time.isNone
   | none => false) &&
  (match findPolicy db r.policy with
   | some pol => !pol.disabled
   | none => false)

def valueError : String := "ValueError: not enough values to unpack"

/-- The tail of `DomainAuthorizationBackend.has_perm` after target
normalization: unpack `app_label, codename = perm.split(".")`, then run the
indexed existence query. -/
def hasPermQuery (db : DB) (source : Nat) (perm : String) (target : Nat) :
    Except String Bool :=
  match permTokens perm with
  | [app_label, codename] =>
    .ok (db.entitlements.any (entMatches db source target app_label codename))
  | _ => .error valueError

/-- `DomainAuthorizationBackend.has_perm(user_obj, perm, obj)`: `None` targets
give `False`; component targets are replaced by their entity; entity targets
are used directly; any other target gives `False`; the subject is used through
`user_obj.entity` (the first argument here is already that entity id). -/
def has_perm (db : DB) (userEntity : Nat) (perm : String) (obj : AuthTarget) :
    Except String Bool :=
  match obj with
  | .pyNone => .ok false
  | .other => .ok false
  | .comp t => hasPermQuery db userEntity perm t
  | .entity t => hasPermQuery db userEntity perm t

deriving instance DecidableEq for Except

/-! Concrete fixtures, mirroring the test project: a `User` entity, a `Place`
entity, a `Thing` entity, one domain, the `testapp.can_use_thing` permission
and a catch-all policy. -/

def thingCT : CT := ⟨"testapp", "thing"⟩

def placeCT : CT := ⟨"testapp", "place"⟩

def aliceE : Entity := ⟨1, none, [userCT], []⟩

def placeE : Entity := ⟨2, none, [placeCT], []⟩

def thingE : Entity := ⟨3, none, [thingCT], []⟩

def canUse : Perm := ⟨70, "can_use_thing", thingCT⟩

def P0 : Policy := ⟨50, 10, "members_can_use_things", [], [70], [], false⟩

/-- Store with a materialized entitlement: alice may use the thing. -/
def db1 : DB := ⟨[aliceE, thingE], [⟨10, "d", [1, 3]⟩], [], [canUse], [P0], [⟨1, 70, 3, 50⟩]⟩

/-- Store where the domain holds alice and a place, and the index is empty. -/
def db2 : DB := ⟨[aliceE, placeE], [⟨10, "d", [1, 2]⟩], [], [canUse], [P0], []⟩

/-- The store produced by delivering to `db2` the event that entity 2 joined
domain 10. -/
def db2Bad : DB := { db2 with entitlements := [⟨1, 70, 2, 50⟩] }

/-- Store where the domain holds alice and the thing, and the index is empty. -/
def db5 : DB := ⟨[aliceE, thingE], [⟨10, "d", [1, 3]⟩], [], [canUse], [P0], []⟩

/-- Store with an empty domain but a leftover entitlement row. -/
def db6 : DB := ⟨[aliceE, thingE], [⟨10, "d", []⟩], [], [canUse], [P0], [⟨1, 70, 3, 50⟩]⟩

/-- A thing entity already carrying the interned attribute 200. -/
def taggedThingE : Entity := ⟨3, none, [thingCT], [200]⟩

/-- A thing entity not yet carrying attribute 200. -/
def plainThingE : Entity := ⟨4, none, [thingCT], []⟩

/-- A policy whose target attribute set is the interned attribute 200. -/
def P7 : Policy := ⟨50, 10, "exclusive_things", [], [70], [200], false⟩

/-- Quiescent store for the attribute-add event: the tagged thing already has
its entitlement row, the plain thing is about to gain attribute 200. -/
def db7pre : DB := ⟨[aliceE, taggedThingE, plainThingE], [⟨10, "d", [1, 3, 4]⟩],
  [⟨200, 10, "access", "exclusive"⟩], [canUse], [P7], [⟨1, 70, 3, 50⟩]⟩

/-! Claim C1: the authorization query as an existence check. -/

theorem findEntity_id (db : DB) (i : Nat) (e : Entity) (h : findEntity db i = some e) :
    e.id = i := by
  unfold findEntity at h
  have := List.find?_some h
  simpa using this

theorem entMatches_eq_true (db : DB) (source target : Nat) (app code : String)
    (r : Entitlement) :
    entMatches db source target app code r = true ↔
      r.source = source ∧ r.target = target ∧
      (∃ p, findPerm db r.permission = some p ∧ p.codename = code ∧ p.ct.app_label = app) ∧
      (∃ s, findEntity db r.source = some s ∧ s.deleted_time = none) ∧
      (∃ t, findEntity db r.target = some t ∧ t.deleted_time = none) ∧
      (∃ pol, findPolicy db r.policy = some pol ∧ pol.disabled = false) := by
  unfold entMatches
  cases hp : findPerm db r.permission <;>
    cases hs : findEntity db r.source <;>
      cases ht : findEntity db r.target <;>
        cases hpol : findPolicy db r.policy <;>
          simp [Bool.and_eq_true, beq_iff_eq, Option.isNone_iff_eq_none,
            Bool.not_eq_true', and_assoc]

/-- Claim C1: for a subject entity, a permission string of the form
`app.codename` and a component or entity target, `has_perm` returns true
exactly when an entitlement row exists whose source is the subject entity,
whose target is the target entity, whose permission has the given codename and
an app label matching content type, and whose source and target rows have null
deletion timestamps while the policy is not disabled. -/
theorem c1_has_perm_characterization (db : DB) (u tid : Nat) (perm app code : String)
    (obj : AuthTarget) (hsplit : permTokens perm = [app, code])
    (hobj : entityRef obj = some tid) :
    has_perm db u perm obj = .ok true ↔
      ∃ r ∈ db.entitlements, r.source = u ∧ r.target = tid ∧
        (∃ p, findPerm db r.permission = some p ∧ p.codename = code ∧ p.ct.app_label = app) ∧
        (∃ s, findEntity db r.source = some s ∧ s.deleted_time = none) ∧
        (∃ t, findEntity db r.target = some t ∧ t.deleted_time = none) ∧
        (∃ pol, findPolicy db r.policy = some pol ∧ pol.disabled = false) := by
  cases obj with
  | pyNone => simp [entityRef] at hobj
  | other => simp [entityRef] at hobj
  | comp t =>
    simp only [entityRef, Option.some.injEq] at hobj
    subst hobj
    simp [has_perm, hasPermQuery, hsplit, List.any_eq_true, entMatches_eq_true]
  | entity t =>
    simp only [entityRef, Option.some.injEq] at hobj
    subst hobj
    simp [has_perm, hasPermQuery, hsplit, List.any_eq_true, entMatches_eq_true]

/-- Claim C1 witness: on `db1`, alice holds `testapp.can_use_thing` over the
thing entity. -/
theorem c1_witness : has_perm db1 1 "testapp.can_use_thing" (.entity 3) = .ok true :=
  (c1_has_perm_characterization db1 1 3 "testapp.can_use_thing" "testapp" "can_use_thing"
      (.entity 3) (by decide) rfl).mpr
    ⟨⟨1, 70, 3, 50⟩, by decide, rfl, rfl, ⟨canUse, rfl, rfl, rfl⟩, ⟨aliceE, rfl, rfl⟩,
      ⟨thingE, rfl, rfl⟩, ⟨P0, rfl, rfl⟩⟩

/-! Claim C8: totality of the authorization query. -/

/-- Claim C8 counterexample: a malformed permission string with a component
target makes `has_perm` raise `ValueError` instead of returning false. -/
theorem c8_counterexample : has_perm db1 1 "x" (.comp 3) = .error valueError := by
  decide

/-- Claim C8 amended: `has_perm` returns false for a `None` target and for a
target that is neither a component nor an entity, before touching the
permission string; for a component or entity target it returns a boolean when
the permission string splits into exactly two tokens on the dot, and raises
`ValueError` otherwise. -/
theorem c8_amended (db : DB) (u : Nat) (perm : String) :
    has_perm db u perm .pyNone = .ok false ∧
    has_perm db u perm .other = .ok false ∧
    (∀ t app code, permTokens perm = [app, code] →
      (∃ b, has_perm db u perm (.comp t) = .ok b) ∧
      (∃ b, has_perm db u perm (.entity t) = .ok b)) ∧
    (∀ t, (permTokens perm).length ≠ 2 →
      has_perm db u perm (.comp t) = .error valueError ∧
      has_perm db u perm (.entity t) = .error valueError) := by
  refine ⟨rfl, rfl, ?_, ?_⟩
  · intro t app code hsplit
    refine ⟨⟨db.entitlements.any (entMatches db u t app code), ?_⟩,
      ⟨db.entitlements.any (entMatches db u t app code), ?_⟩⟩ <;>
      simp [has_perm, hasPermQuery, hsplit]
  · intro t hlen
    match hl : permTokens perm with
    | [] => exact ⟨by simp [has_perm, hasPermQuery, hl], by simp [has_perm, hasPermQuery, hl]⟩
    | [a] => exact ⟨by simp [has_perm, hasPermQuery, hl], by simp [has_perm, hasPermQuery, hl]⟩
    | [a, b] => exact absurd (by rw [hl]; rfl) hlen
    | a :: b :: c :: rest =>
      exact ⟨by simp [has_perm, hasPermQuery, hl], by simp [has_perm, hasPermQuery, hl]⟩

/-- Claim C8 amended witness: concrete instances of each clause. -/
theorem c8_amended_witness :
    has_perm db1 1 "a.b.c" (.comp 3) = .error valueError :=
  ((c8_amended db1 1 "a.b.c").2.2.2 3 (by decide)).1

/-! Claim C3: `create_entitlements` and the singular content type access. -/

/-- Claim C3: on a store with a nonempty source set, a nonempty target set and
a nonempty permission set, `create_entitlements` raises `AttributeError` on the
`target.content_type` access instead of inserting the rows filtered by
`p.content_type ∈ t.content_types`; the expected row for the thing target does
satisfy that membership. -/
theorem c3_create_entitlements_raises :
    P0.create_entitlements db5 = .error attributeError ∧
    P0.sources db5 ≠ [] ∧ P0.targets db5 ≠ [] ∧ P0.allowPerms db5 ≠ [] ∧
    canUse.ct ∈ thingE.content_types := by
  decide

/-! Claim C6: `Policy.save` runs `create_entitlements` with no orphan sweep. -/

theorem insertIgnore_sub (ents rows : List Entitlement) :
    ∀ r ∈ ents, r ∈ insertIgnore ents rows := by
  induction rows generalizing ents with
  | nil => intro r hr; exact hr
  | cons a rest ih =>
    intro r hr
    unfold insertIgnore
    rw [List.foldl_cons]
    refine ih _ r ?_
    by_cases ha : a ∈ ents
    · simpa [ha] using hr
    · simp only [ha, if_false]
      exact List.mem_append_left _ hr

/-- Claim C6 counterexample: on `db6` the only entitlement row matches no pair
of the current (empty) source and target sets, yet `save` succeeds and leaves
the row in place: there is no orphan sweep. -/
theorem c6_counterexample :
    P0.savePolicy db6 = .ok db6 ∧
    (⟨1, 70, 3, 50⟩ : Entitlement) ∈ db6.entitlements ∧
    P0.sources db6 = [] ∧ P0.targets db6 = [] := by
  decide

/-- Claim C6 amended: saving a policy runs `create_entitlements` inside the
transaction and only adds its rows (dropping duplicates); it deletes nothing,
so stale entitlement rows survive a save. -/
theorem c6_amended (db : DB) (P : Policy) (db' : DB) (h : P.savePolicy db = .ok db') :
    (∃ rows, P.create_entitlements db = .ok rows ∧
      db'.entitlements = insertIgnore db.entitlements rows) ∧
    ∀ r ∈ db.entitlements, r ∈ db'.entitlements := by
  unfold Policy.savePolicy at h
  cases hc : P.create_entitlements db with
  | error e => rw [hc] at h; exact absurd h (by simp [Bind.bind, Except.bind])
  | ok rows =>
    rw [hc] at h
    simp only [Bind.bind, Except.bind, pure, Except.pure, Except.ok.injEq] at h
    subst h
    exact ⟨⟨rows, rfl, rfl⟩, insertIgnore_sub _ _⟩

/-- Claim C6 amended witness: the amended statement evaluated on `db6`. -/
theorem c6_amended_witness :
    (∃ rows, P0.create_entitlements db6 = .ok rows ∧
      db6.entitlements = insertIgnore db6.entitlements rows) ∧
    ∀ r ∈ db6.entitlements, r ∈ db6.entitlements :=
  c6_amended db6 P0 db6 (by decide)

/-! Claim C9: the soft-delete branch of `EntityModel.delete`. -/

/-- A component row of the abstract `EntityModel` base class: the entity
reference and the nullable deletion timestamp. -/
structure CompRow where
  entity : Nat
  deleted_time : Option Nat
deriving DecidableEq

/-- `EntityModel.delete(hard_delete=False)` exactly as written in the source:
when `deleted_time != None` the row is stamped with the current time and saved,
otherwise nothing happens. -/
def CompRow.deleteSoft (c : CompRow) (now : Nat) : CompRow :=
  if c.deleted_time ≠ none then ⟨c.entity, some now⟩ else c

/-- `EntityModel.Manager.get_queryset`: the default view keeps only rows whose
deletion timestamp is null. -/
def objectsView (rows : List CompRow) : List CompRow :=
  rows.filter (fun c => c.deleted_time.isNone)

/-- `EntityModel.objects_archive`: the archive manager applies no filter. -/
def objectsArchive (rows : List CompRow) : List CompRow := rows

/-- Claim C9: the deletion guard is inverted. Deleting a live row is a no-op,
so the row keeps a null timestamp and stays in the default view, while
deleting an already-deleted row re-stamps it, contradicting the NOOP comment
in the source. -/
theorem c9_soft_delete_noop :
    CompRow.deleteSoft ⟨1, none⟩ 7 = ⟨1, none⟩ ∧
    CompRow.deleteSoft ⟨1, none⟩ 7 ∈ objectsView [CompRow.deleteSoft ⟨1, none⟩ 7] ∧
    CompRow.deleteSoft ⟨1, none⟩ 7 ∈ objectsArchive [CompRow.deleteSoft ⟨1, none⟩ 7] ∧
    CompRow.deleteSoft ⟨1, some 3⟩ 7 = ⟨1, some 7⟩ := by
  decide

/-! Claim C2: the propagator violates the content-type clause of the index
invariant. -/

/-- The soundness and completeness characterization of the entitlement rows of
one policy, from spec section 3 invariants 3 and 4 (the deletion clause is
invariant 5), phrased over the query results of the policy. -/
def IndexExact (db : DB) (P : Policy) : Prop :=
  (∀ r ∈ db.entitlements, r.policy = P.id →
    ∃ s ∈ P.sources db, ∃ t ∈ P.targets db, ∃ p ∈ P.allowPerms db,
      p.ct ∈ t.content_types ∧ r = ⟨s.id, p.pid, t.id, P.id⟩) ∧
  (∀ s ∈ P.sources db, ∀ t ∈ P.targets db, ∀ p ∈ P.allowPerms db,
    p.ct ∈ t.content_types → (⟨s.id, p.pid, t.id, P.id⟩ : Entitlement) ∈ db.entitlements)

instance (db : DB) (P : Policy) : Decidable (IndexExact db P) := by
  unfold IndexExact
  infer_instance

/-- Claim C2: from the quiescent store `db2` (whose index is exactly
characterized), delivering the event that entity 2 joined domain 10 completes
and leaves a row whose permission content type (`testapp.thing`) is not among
the target content types (`testapp.place`): the fallback of `_extrude_target`
omits the content-type filter, so the soundness half of the invariant fails at
the resulting quiescent state. -/
theorem c2_invariant_violated :
    IndexExact db2 P0 ∧
    onEntityDomainAdd db2 10 [2] = .ok db2Bad ∧
    (⟨1, 70, 2, 50⟩ : Entitlement) ∈ db2Bad.entitlements ∧
    findPerm db2Bad 70 = some canUse ∧
    findEntity db2Bad 2 = some placeE ∧
    canUse.ct ∉ placeE.content_types := by
  decide

/-! Claim C7: idempotence of the handlers and conflict-safe inserts. -/

/-- Claim C7 counterexample: delivering the same domain-add event twice first
succeeds and then raises on the uniqueness constraint, because
`on_entity_domain_change` inserts without ignore-on-conflict. -/
theorem c7_counterexample :
    onEntityDomainAdd db2 10 [2] = .ok db2Bad ∧
    onEntityDomainAdd db2Bad 10 [2] = .error integrityError := by
  decide

/-- Claim C7 amended: the attribute-change handler and `create_entitlements`
insert with ignore-on-conflict, so re-inserting rows that are all present
leaves the index unchanged and those inserts cannot fail on the uniqueness
constraint; but the handlers are not idempotent or total: the domain-change and
allow-permissions `post_add` handlers insert with a plain batched insert, which
fails whenever one produced row is already present, and any handler reaching
the references loop of `_extrude_target` raises `ValueError` there, as the
attribute-add event on the quiescent, invariant-satisfying store `db7pre`
shows. -/
theorem c7_amended :
    (∀ ents rows, (∀ r ∈ rows, r ∈ ents) → insertIgnore ents rows = ents) ∧
    (∀ ents rows (r : Entitlement), r ∈ rows → r ∈ ents →
      insertStrict ents rows = .error integrityError) ∧
    (IndexExact db7pre P7 ∧
      onEntityAttributeAdd db7pre 4 [200] = .error fkAssignError) := by
  refine ⟨?_, ?_, ?_⟩
  · intro ents rows h
    induction rows generalizing ents with
    | nil => rfl
    | cons a rest ih =>
      unfold insertIgnore
      rw [List.foldl_cons]
      have ha : a ∈ ents := h a (List.mem_cons_self a rest)
      simp only [ha, if_true]
      exact ih ents (fun r hr => h r (List.mem_cons_of_mem a hr))
  · intro ents rows
    induction rows generalizing ents with
    | nil => intro r hr; exact absurd hr (List.not_mem_nil r)
    | cons a rest ih =>
      intro r hr hrents
      unfold insertStrict
      rw [List.foldlM_cons]
      by_cases ha : a ∈ ents
      · simp [ha, Bind.bind, Except.bind]
      · simp only [ha, if_false]
        rcases List.mem_cons.mp hr with rfl | hr'
        · exact absurd hrents ha
        · have := ih (ents ++ [a]) r hr' (List.mem_append_left _ hrents)
          simpa [Bind.bind, Except.bind, insertStrict] using this
  · decide

/-- Claim C7 amended witness: the strict insert fails on a concrete duplicate
row, via the amended theorem. -/
theorem c7_amended_witness :
    insertStrict [(⟨1, 70, 2, 50⟩ : Entitlement)] [⟨1, 70, 2, 50⟩] = .error integrityError :=
  c7_amended.2.1 [⟨1, 70, 2, 50⟩] [⟨1, 70, 2, 50⟩] ⟨1, 70, 2, 50⟩ (by decide) (by decide)

/-! Claim C4: `Policy.sources` also filters on the `User` content type. -/

/-- Claim C4 amended: `sources()` returns exactly the entities of the policy
domain that carry the `User` content type and every attribute of
`source_attrs`; with an empty `source_attrs` that is every domain member
carrying the `User` content type, not every member. -/
theorem c4_amended (db : DB) (P : Policy) (e : Entity) :
    e ∈ P.sources db ↔
      ∃ d, findDomain db P.domain = some d ∧ e.id ∈ d.entities ∧
        findEntity db e.id = some e ∧ userCT ∈ e.content_types ∧
        ∀ a ∈ P.source_attrs, a ∈ e.attrs := by
  unfold Policy.sources
  cases hd : findDomain db P.domain with
  | none => simp
  | some d =>
    simp only [List.mem_filter, List.mem_filterMap, Bool.and_eq_true, decide_eq_true_eq,
      List.all_eq_true, Option.some.injEq]
    constructor
    · rintro ⟨⟨i, hi, hfind⟩, hu, hattrs⟩
      have hid := findEntity_id db i e hfind
      subst hid
      exact ⟨d, rfl, hi, hfind, hu, fun a ha => hattrs a ha⟩
    · rintro ⟨d', hd', hi, hfind, hu, hattrs⟩
      cases hd'
      exact ⟨⟨e.id, hi, hfind⟩, hu, fun a ha => hattrs a ha⟩

/-- Claim C4 amended witness: alice is a source of the catch-all policy on
`db1`. -/
theorem c4_amended_witness : aliceE ∈ P0.sources db1 :=
  (c4_amended db1 P0 aliceE).mpr
    ⟨⟨10, "d", [1, 3]⟩, rfl, by decide, rfl, by decide, by decide⟩

/-- A place entity carrying the required source attribute. -/
def placeAttrE : Entity := ⟨2, none, [placeCT], [100]⟩

/-- A policy whose source attribute set is the interned attribute 100. -/
def P4 : Policy := ⟨51, 10, "narrow", [100], [70], [], false⟩

/-- Store for the C4 counterexample: the domain member carries every source
attribute of the policy but no `User` component. -/
def db4 : DB := ⟨[placeAttrE], [⟨10, "d", [2]⟩], [⟨100, 10, "role", "member"⟩],
  [canUse], [P4], []⟩

/-- Claim C4 counterexample: entity 2 is a member of the policy domain and
carries every source attribute, yet `sources()` omits it because it carries no
`User` content type. -/
theorem c4_counterexample :
    findDomain db4 P4.domain = some ⟨10, "d", [2]⟩ ∧
    placeAttrE.id ∈ [2] ∧
    (∀ a ∈ P4.source_attrs, a ∈ placeAttrE.attrs) ∧
    placeAttrE ∉ P4.sources db4 := by
  decide

/-! Claim C5: the extrude primitives against a full re-materialization. -/

/-- Follows the words of the spec (refinement reference): the rows a full
re-materialization of the policy assigns to `e` as a source, one row per
`t ∈ targets()` and `p ∈ allow_permissions` with
`p.content_type ∈ t.content_types`. -/
def rematSourceRows (P : Policy) (db : DB) (e : Entity) : List Entitlement :=
  (P.targets db).flatMap (fun t =>
    ((P.allowPerms db).filter (fun p => decide (p.ct ∈ t.content_types))).map
      (fun p => ⟨e.id, p.pid, t.id, P.id⟩))

/-- Follows the words of the spec (refinement reference): the rows a full
re-materialization of the policy assigns to `e` as a target. -/
def rematTargetRows (P : Policy) (db : DB) (e : Entity) : List Entitlement :=
  (P.sources db).flatMap (fun s =>
    ((P.allowPerms db).filter (fun p => decide (p.ct ∈ e.content_types))).map
      (fun p => ⟨s.id, p.pid, e.id, P.id⟩))

theorem entitlementRows_mem (db : DB) (P : Policy) (r : Entitlement) :
    r ∈ P.entitlementRows db ↔ r ∈ db.entitlements ∧ r.policy = P.id := by
  simp [Policy.entitlementRows, List.mem_filter]

theorem sourceReferences_mem (db : DB) (P : Policy) (pr : Nat × Nat) :
    pr ∈ P.sourceReferences db ↔
      ∃ r ∈ db.entitlements, r.policy = P.id ∧ r.permission = pr.1 ∧ r.target = pr.2 := by
  simp only [Policy.sourceReferences, List.mem_dedup, List.mem_map, entitlementRows_mem]
  constructor
  · rintro ⟨r, ⟨hr, hpol⟩, rfl⟩
    exact ⟨r, hr, hpol, rfl, rfl⟩
  · rintro ⟨r, hr, hpol, h1, h2⟩
    exact ⟨r, ⟨hr, hpol⟩, by rw [h1, h2]⟩

theorem sourceReferences_sound (db : DB) (P : Policy) (h : IndexExact db P)
    (pid tid : Nat) (hpr : (pid, tid) ∈ P.sourceReferences db) :
    ∃ t ∈ P.targets db, ∃ p ∈ P.allowPerms db,
      p.ct ∈ t.content_types ∧ p.pid = pid ∧ t.id = tid := by
  rcases (sourceReferences_mem db P (pid, tid)).mp hpr with ⟨r, hr, hpol, h1, h2⟩
  rcases h.1 r hr hpol with ⟨s, _, t, ht, p, hp, hct, hr'⟩
  subst hr'
  refine ⟨t, ht, p, hp, hct, ?_, ?_⟩
  · simpa using h1
  · simpa using h2

theorem sourceReferences_complete (db : DB) (P : Policy) (h : IndexExact db P)
    (hne : P.sourceReferences db ≠ []) (t : Entity) (ht : t ∈ P.targets db)
    (p : Perm) (hp : p ∈ P.allowPerms db) (hct : p.ct ∈ t.content_types) :
    (p.pid, t.id) ∈ P.sourceReferences db := by
  rcases List.exists_mem_of_ne_nil _ hne with ⟨pr, hpr⟩
  rcases (sourceReferences_mem db P pr).mp hpr with ⟨r0, hr0, hpol0, _, _⟩
  rcases h.1 r0 hr0 hpol0 with ⟨s0, hs0, _, _, _, _, _, _⟩
  have hrow := h.2 s0 hs0 t ht p hp hct
  exact (sourceReferences_mem db P (p.pid, t.id)).mpr ⟨⟨s0.id, p.pid, t.id, P.id⟩, hrow, rfl, rfl, rfl⟩

theorem extrude_source_eq_remat (db : DB) (P : Policy) (e : Entity)
    (h : IndexExact db P) :
    ∀ x, x ∈ P.extrude_source db e ↔ x ∈ rematSourceRows P db e := by
  intro x
  unfold Policy.extrude_source
  by_cases hrefs : P.sourceReferences db = []
  · simp [hrefs, rematSourceRows]
  · rw [List.isEmpty_eq_false_iff_exists_mem.mpr
      (List.exists_mem_of_ne_nil _ hrefs)]
    simp only [Bool.false_eq_true, if_false, List.nil_append, List.mem_map]
    constructor
    · rintro ⟨⟨pid, tid⟩, hpr, rfl⟩
      rcases sourceReferences_sound db P h pid tid hpr with ⟨t, ht, p, hp, hct, rfl, rfl⟩
      simp only [rematSourceRows, List.mem_flatMap, List.mem_map, List.mem_filter]
      exact ⟨t, ht, p, ⟨hp, by simpa using hct⟩, rfl⟩
    · intro hx
      simp only [rematSourceRows, List.mem_flatMap, List.mem_map, List.mem_filter] at hx
      rcases hx with ⟨t, ht, p, ⟨hp, hct⟩, rfl⟩
      exact ⟨(p.pid, t.id),
        sourceReferences_complete db P h hrefs t ht p hp (by simpa using hct), rfl⟩

/-- Claim C5 amended: assuming the index is exactly characterized for the
policy, `_extrude_source` yields precisely the rows a full re-materialization
assigns the new source, both through the reference pairs and through the
fallback; `_extrude_target` does not satisfy the symmetric statement: when no
existing entitlement of the policy has a permission content type among the new
target content types, its fallback emits one row per `s ∈ sources()` and
`p ∈ allow_permissions` with no content-type restriction, and otherwise its
references loop raises `ValueError` instead of yielding the reference rows. -/
theorem c5_amended (db : DB) (P : Policy) (e t : Entity) (h : IndexExact db P) :
    (∀ x, x ∈ P.extrude_source db e ↔ x ∈ rematSourceRows P db e) ∧
    (P.targetReferences db t = [] →
      P.extrude_target db t = .ok ((P.sources db).flatMap (fun s =>
        (P.allowPerms db).map (fun p => (⟨s.id, p.pid, t.id, P.id⟩ : Entitlement))))) ∧
    (P.targetReferences db t ≠ [] → P.extrude_target db t = .error fkAssignError) := by
  refine ⟨extrude_source_eq_remat db P e h, ?_, ?_⟩
  · intro hrefs
    simp [Policy.extrude_target, hrefs]
  · intro hrefs
    rw [Policy.extrude_target, if_neg]
    simpa [List.isEmpty_iff] using hrefs

/-- Claim C5 amended witness: the amended statement applied on `db2` (whose
index is exactly characterized) at a concrete row. -/
theorem c5_amended_witness :
    (⟨1, 70, 2, 50⟩ : Entitlement) ∈ P0.extrude_source db2 aliceE ↔
      (⟨1, 70, 2, 50⟩ : Entitlement) ∈ rematSourceRows P0 db2 aliceE :=
  (c5_amended db2 P0 aliceE placeE (by decide)).1 ⟨1, 70, 2, 50⟩

/-- Claim C5 counterexample: `db2` satisfies the index invariant for the
policy, yet `_extrude_target` for the place entity emits a row that a full
re-materialization would not assign it (the permission content type
`testapp.thing` is not among the place content types). -/
theorem c5_counterexample :
    IndexExact db2 P0 ∧
    P0.extrude_target db2 placeE = .ok [⟨1, 70, 2, 50⟩] ∧
    (⟨1, 70, 2, 50⟩ : Entitlement) ∉ rematTargetRows P0 db2 placeE := by
  decide

/-! Claim C10: the domain DAG and cycle prevention.  The Domain model methods
(`add_to_domain`, `has_subdomain_recursive`, `is_in_domain`) are absent from
the source tree (only their callers and tests remain), so this component is
modelled from the spec. -/

/-- Modelled from the spec: the state of the domain DAG, which entities carry a
Domain component, and the membership junction rows `(domain, member)`. -/
structure DomState where
  domains : List Nat
  member : List (Nat × Nat)
deriving DecidableEq

/-- Modelled from the spec: `b` is a direct subdomain of `a` when `b` is a
member of domain `a` and itself carries a Domain component. -/
def subEdge (st : DomState) (a b : Nat) : Prop :=
  (a, b) ∈ st.member ∧ b ∈ st.domains

/-- Modelled from the spec: `has_subdomain_recursive`, the reflexive transitive
closure of the subdomain relation. -/
def hasSubdomainRecursive (st : DomState) (b a : Nat) : Prop :=
  Relation.ReflTransGen (subEdge st) b a

/-- Modelled from the spec: the non-recursive `is_in_domain`, a direct
membership test. -/
def is_in_domain (st : DomState) (e d : Nat) : Prop := (d, e) ∈ st.member

/-- No domain is among its own transitive subdomains. -/
def AcyclicDom (st : DomState) : Prop :=
  ∀ d, ¬ Relation.TransGen (subEdge st) d d

/-- The domain side of every membership row carries a Domain component
(membership rows are created only through `add_to_domain` on a Domain). -/
def MemberWF (st : DomState) : Prop := ∀ p ∈ st.member, p.1 ∈ st.domains

/-- Modelled from the spec: one attempt to add `B` as a member of domain `A`.
The cycle guard rejects when `B` is a domain whose reflexive transitive
subdomains include `A` (strict mode raises `CycleViolation`, lenient mode
filters the element silently); both modes leave the state unchanged on
rejection. -/
inductive AttemptAdd (st : DomState) (A B : Nat) : DomState → Prop where
  | accepted (hA : A ∈ st.domains)
      (hguard : ¬ (B ∈ st.domains ∧ hasSubdomainRecursive st B A)) :
      AttemptAdd st A B ⟨st.domains, (A, B) :: st.member⟩
  | rejected (hA : A ∈ st.domains)
      (hB : B ∈ st.domains) (hcycle : hasSubdomainRecursive st B A) :
      AttemptAdd st A B st

/-- Modelled from the spec: the mutations of the domain DAG: a membership
attempt, creation of a Domain component on an entity that carries none, and
removal of a membership row. -/
inductive DomStep (st : DomState) : DomState → Prop where
  | add (st' : DomState) (A B : Nat) (h : AttemptAdd st A B st') : DomStep st st'
  | createDomain (B : Nat) (hB : B ∉ st.domains) :
      DomStep st ⟨B :: st.domains, st.member⟩
  | removeMember (p : Nat × Nat) :
      DomStep st ⟨st.domains, st.member.erase p⟩

/-- States reachable from the empty store. -/
def DomReachable (st : DomState) : Prop :=
  Relation.ReflTransGen DomStep ⟨[], []⟩ st

theorem rtg_new_edge_decompose {r s : Nat → Nat → Prop} {A B : Nat}
    (hsub : ∀ x y, s x y → r x y ∨ (x = A ∧ y = B))
    (hless : ∀ x y, r x y → s x y) :
    ∀ {x y : Nat}, Relation.ReflTransGen s x y →
      Relation.ReflTransGen r x y ∨
        (Relation.ReflTransGen r x A ∧ Relation.ReflTransGen s B y) := by
  intro x y hxy
  induction hxy with
  | refl => exact Or.inl Relation.ReflTransGen.refl
  | tail hxz hzy ih =>
    rcases hsub _ _ hzy with hr | ⟨rfl, rfl⟩
    · rcases ih with hxz' | ⟨hxA, hBz⟩
      · exact Or.inl (hxz'.tail hr)
      · exact Or.inr ⟨hxA, hBz.tail (hless _ _ hr)⟩
    · rcases ih with hxA | ⟨hxA, hBA⟩
      · exact Or.inr ⟨hxA, Relation.ReflTransGen.refl⟩
      · exact Or.inr ⟨hxA, Relation.ReflTransGen.refl⟩

theorem rtg_from_new_source {r s : Nat → Nat → Prop} {A B : Nat}
    (hsub : ∀ x y, s x y → r x y ∨ (x = A ∧ y = B))
    (hless : ∀ x y, r x y → s x y)
    (hnBA : ¬ Relation.ReflTransGen r B A) {y : Nat}
    (h : Relation.ReflTransGen s B y) : Relation.ReflTransGen r B y := by
  rcases rtg_new_edge_decompose hsub hless h with h' | ⟨hBA, hrest⟩
  · exact h'
  · exact absurd hBA hnBA

theorem acyclic_add_edge {r s : Nat → Nat → Prop} {A B : Nat}
    (hsub : ∀ x y, s x y → r x y ∨ (x = A ∧ y = B))
    (hless : ∀ x y, r x y → s x y)
    (hacyc : ∀ d, ¬ Relation.TransGen r d d)
    (hnBA : ¬ Relation.ReflTransGen r B A) :
    ∀ d, ¬ Relation.TransGen s d d := by
  intro d hcyc
  rw [Relation.TransGen.tail'_iff] at hcyc
  obtain ⟨c, hdc, hcd⟩ := hcyc
  rcases hsub _ _ hcd with hr | ⟨rfl, rfl⟩
  · rcases rtg_new_edge_decompose hsub hless hdc with hdc' | ⟨hdA, hBc⟩
    · exact hacyc d (Relation.TransGen.tail' hdc' hr)
    · have hBd : Relation.ReflTransGen r B d :=
        rtg_from_new_source hsub hless hnBA (hBc.tail (hless _ _ hr))
      exact hnBA (hBd.trans hdA)
  · exact hnBA (rtg_from_new_source hsub hless hnBA hdc)

theorem rtg_no_new_source {r s : Nat → Nat → Prop} {B : Nat}
    (hsub : ∀ x y, s x y → r x y ∨ y = B) (hBout : ∀ z, ¬ s B z) :
    ∀ {x y : Nat}, Relation.ReflTransGen s x y → y = B ∨ Relation.ReflTransGen r x y := by
  intro x y h
  induction h with
  | refl => exact Or.inr Relation.ReflTransGen.refl
  | tail hxz hzy ih =>
    rcases ih with rfl | hxz'
    · exact absurd hzy (hBout _)
    · rcases hsub _ _ hzy with hr | rfl
      · exact Or.inr (hxz'.tail hr)
      · exact Or.inl rfl

theorem acyclic_new_sink {r s : Nat → Nat → Prop} {B : Nat}
    (hsub : ∀ x y, s x y → r x y ∨ y = B) (hBout : ∀ z, ¬ s B z)
    (hacyc : ∀ d, ¬ Relation.TransGen r d d) :
    ∀ d, ¬ Relation.TransGen s d d := by
  intro d hcyc
  have hd := hcyc
  rw [Relation.TransGen.tail'_iff] at hcyc
  obtain ⟨c, hdc, hcd⟩ := hcyc
  rcases rtg_no_new_source hsub hBout hdc with rfl | hdc'
  · exact hBout _ hcd
  · rcases hsub _ _ hcd with hr | rfl
    · exact hacyc d (Relation.TransGen.tail' hdc' hr)
    · rw [Relation.TransGen.head'_iff] at hd
      obtain ⟨z, hBz, hrest⟩ := hd
      exact hBout _ hBz

theorem subEdge_add_member (st : DomState) (A B x y : Nat) :
    subEdge ⟨st.domains, (A, B) :: st.member⟩ x y ↔
      subEdge st x y ∨ (x = A ∧ y = B ∧ B ∈ st.domains) := by
  constructor
  · rintro ⟨hm, hd⟩
    rcases List.mem_cons.mp hm with heq | hm'
    · have h1 : x = A := congrArg Prod.fst heq
      have h2 : y = B := congrArg Prod.snd heq
      subst h1; subst h2
      exact Or.inr ⟨rfl, rfl, hd⟩
    · exact Or.inl ⟨hm', hd⟩
  · rintro (⟨hm, hd⟩ | ⟨rfl, rfl, hd⟩)
    · exact ⟨List.mem_cons_of_mem _ hm, hd⟩
    · exact ⟨List.mem_cons_self _ _, hd⟩

theorem domInv_attemptAdd (st st' : DomState) (A B : Nat)
    (h : AttemptAdd st A B st') (hacyc : AcyclicDom st) (hwf : MemberWF st) :
    AcyclicDom st' ∧ MemberWF st' := by
  cases h with
  | rejected hA hB hcycle => exact ⟨hacyc, hwf⟩
  | accepted hA hguard =>
    have hnBA : ¬ Relation.ReflTransGen (subEdge st) B A := by
      intro hBA
      by_cases hBdom : B ∈ st.domains
      · exact hguard ⟨hBdom, hBA⟩
      · rcases hBA.cases_head with heq | ⟨z, hstep, hrest⟩
        · exact hBdom (by rw [heq]; exact hA)
        · exact hBdom (hwf (B, z) hstep.1)
    have hsub : ∀ x y, subEdge ⟨st.domains, (A, B) :: st.member⟩ x y →
        subEdge st x y ∨ (x = A ∧ y = B) := by
      intro x y hxy
      rcases (subEdge_add_member st A B x y).mp hxy with h' | ⟨h1, h2, hrest⟩
      · exact Or.inl h'
      · exact Or.inr ⟨h1, h2⟩
    have hless : ∀ x y, subEdge st x y → subEdge ⟨st.domains, (A, B) :: st.member⟩ x y :=
      fun x y hxy => (subEdge_add_member st A B x y).mpr (Or.inl hxy)
    refine ⟨fun d => acyclic_add_edge hsub hless hacyc hnBA d, ?_⟩
    intro p hp
    rcases List.mem_cons.mp hp with rfl | hp'
    · exact hA
    · exact hwf p hp'

theorem domInv_step (st st' : DomState) (h : DomStep st st')
    (hacyc : AcyclicDom st) (hwf : MemberWF st) : AcyclicDom st' ∧ MemberWF st' := by
  cases h with
  | add _ A B hadd => exact domInv_attemptAdd st st' A B hadd hacyc hwf
  | createDomain B hB =>
    have hBout : ∀ z, ¬ subEdge ⟨B :: st.domains, st.member⟩ B z := by
      intro z hz
      exact hB (hwf (B, z) hz.1)
    have hsub : ∀ x y, subEdge ⟨B :: st.domains, st.member⟩ x y → subEdge st x y ∨ y = B := by
      intro x y hxy
      rcases hxy with ⟨hm, hd⟩
      rcases List.mem_cons.mp hd with rfl | hd'
      · exact Or.inr rfl
      · exact Or.inl ⟨hm, hd'⟩
    refine ⟨fun d => acyclic_new_sink hsub hBout hacyc d, ?_⟩
    intro p hp
    exact List.mem_cons_of_mem B (hwf p hp)
  | removeMember p =>
    have hsub : ∀ x y, subEdge ⟨st.domains, st.member.erase p⟩ x y → subEdge st x y := by
      intro x y hxy
      exact ⟨List.erase_subset p st.member hxy.1, hxy.2⟩
    refine ⟨fun d hcyc => hacyc d (Relation.TransGen.mono hsub hcyc), ?_⟩
    intro q hq
    exact hwf q (List.erase_subset p st.member hq)

theorem domInv_reachable (st : DomState) (h : DomReachable st) :
    AcyclicDom st ∧ MemberWF st := by
  unfold DomReachable at h
  induction h with
  | refl =>
    constructor
    · intro d hcyc
      rw [Relation.TransGen.head'_iff] at hcyc
      obtain ⟨z, hz, hrest⟩ := hcyc
      exact (List.not_mem_nil _) hz.1
    · intro p hp
      exact absurd hp (List.not_mem_nil p)
  | tail hst hstep ih => exact domInv_step _ _ hstep ih.1 ih.2

/-- Claim C10: in every reachable state the domain membership relation is
acyclic (no entity is among its own transitive subdomains), and every attempt
to add `B` as a member of domain `A` where `B` is a domain with
`has_subdomain_recursive` reaching `A` (self membership included) is rejected
leaving the membership relation unchanged, so `is_in_domain` still reports
false for the offending pair afterwards. -/
theorem c10_domain_dag (st : DomState) (hreach : DomReachable st) :
    AcyclicDom st ∧
    ∀ A B st', AttemptAdd st A B st' → B ∈ st.domains →
      hasSubdomainRecursive st B A → st' = st ∧ ¬ is_in_domain st' B A := by
  obtain ⟨hacyc, hwf⟩ := domInv_reachable st hreach
  refine ⟨hacyc, ?_⟩
  intro A B st' hadd hB hcyc
  cases hadd with
  | accepted hA hguard => exact absurd ⟨hB, hcyc⟩ hguard
  | rejected hA hB2 hcyc2 =>
    refine ⟨rfl, ?_⟩
    intro hmem
    exact hacyc A (Relation.TransGen.head' ⟨hmem, hB⟩ hcyc)

/-- Claim C10 witness: the theorem applied to the state reached by creating a
single domain. -/
theorem c10_domain_dag_witness : AcyclicDom ⟨[1], []⟩ :=
  (c10_domain_dag ⟨[1], []⟩
    (Relation.ReflTransGen.single (DomStep.createDomain 1 (List.not_mem_nil 1)))).1

end Onto
